import Mathlib

/-!
Verification of the recipe-extraction pipeline in `src/api/src/routes/api.ts`.

The TypeScript source is shallowly embedded: every pure helper
(`extractIngredients`, `extractSteps`, `synthesizeRecipe`, `renderMarkdown`,
`renderTxt`, `fallbackRecipe`, `vttToPlainText`, `safeJson`, `decodeHtml`) is
translated into an executable Lean function over `String`/`List Char`, and the
effectful routes (`/start-job`, `/get-recipe`, `fetchYouTubePage`,
`tryFetchYouTubeTranscript`) are translated into pure functions of their
request data plus an explicit network oracle (`NetFetch`), with JavaScript
exceptions represented by `Except Unit`.

JavaScript regular expressions are embedded as dedicated scanners that
reproduce the leftmost-match, greedy/lazy and backtracking semantics of each
concrete pattern appearing in the source.  JavaScript `String.prototype` case
operations are modelled on the ASCII range (the patterns in the source are
all ASCII, and ECMAScript canonicalisation for non-`u` case-insensitive
regexes never identifies a non-ASCII character with an ASCII one).
-/

namespace RecipeApi

/-! ### Character classes (mirroring the JS regex classes used in the source) -/

/-- JS `\s` (non-`u` regex): ECMAScript WhiteSpace and LineTerminator set. -/
def isJsWs (c : Char) : Bool :=
  let n := c.toNat
  (9 ≤ n && n ≤ 13) || n == 32 || n == 160 || n == 0x1680 ||
  (0x2000 ≤ n && n ≤ 0x200A) || n == 0x2028 || n == 0x2029 ||
  n == 0x202F || n == 0x205F || n == 0x3000 || n == 0xFEFF

/-- JS `[0-9]` / `\d`. -/
def isAsciiDigit (c : Char) : Bool :=
  48 ≤ c.toNat && c.toNat ≤ 57

/-- JS `[a-zA-Z]`. -/
def isAsciiLetter (c : Char) : Bool :=
  let n := c.toNat
  (65 ≤ n && n ≤ 90) || (97 ≤ n && n ≤ 122)

/-- JS `[a-z]`. -/
def isAsciiLower (c : Char) : Bool :=
  97 ≤ c.toNat && c.toNat ≤ 122

/-- The unit-token class `[a-zA-Zµμ]` of the ingredient pattern
(U+00B5 MICRO SIGN and U+03BC GREEK SMALL LETTER MU). -/
def isUnitChar (c : Char) : Bool :=
  isAsciiLetter c || c.toNat == 0xB5 || c.toNat == 0x3BC

/-- JS `.` in a non-`s` regex: any character except a LineTerminator. -/
def isJsDot (c : Char) : Bool :=
  let n := c.toNat
  !(n == 10 || n == 13 || n == 0x2028 || n == 0x2029)

/-- JS `\w` word characters, for `\b` boundaries: `[a-zA-Z0-9_]`. -/
def isWordChar (c : Char) : Bool :=
  isAsciiLetter c || isAsciiDigit c || c == '_'

/-- ASCII-range upper-casing (used for `toUpperCase` on the first character
of ASCII step sentences). -/
def asciiUpper (c : Char) : Char :=
  if isAsciiLower c then Char.ofNat (c.toNat - 32) else c

/-- ASCII-range lower-casing, the canonicalisation used to decide
case-insensitive matches of the (all-ASCII) patterns in the source. -/
def asciiLower (c : Char) : Char :=
  if 65 ≤ c.toNat && c.toNat ≤ 90 then Char.ofNat (c.toNat + 32) else c

/-! ### Generic string helpers -/

/-- Is `true` iff `w` occurs as a contiguous substring of the second argument
(JS `String.prototype.includes` / an unanchored regex literal). -/
def hasSub (w : List Char) : List Char → Bool
  | [] => w.isEmpty
  | c :: t => w.isPrefixOf (c :: t) || hasSub w t

/-- Case-insensitive (ASCII) literal match at the start of `cs`. -/
def ciStarts : List Char → List Char → Bool
  | [], _ => true
  | _ :: _, [] => false
  | p :: ps, c :: cs => asciiLower p == asciiLower c && ciStarts ps cs

/-- JS `String.prototype.trim`. -/
def trimJS (cs : List Char) : List Char :=
  ((cs.dropWhile isJsWs).reverse.dropWhile isJsWs).reverse

/-- JS `str.split(/\r?\n/)`. -/
def splitLinesL : List Char → List (List Char)
  | [] => [[]]
  | '\r' :: '\n' :: t => [] :: splitLinesL t
  | '\n' :: t => [] :: splitLinesL t
  | c :: t =>
    match splitLinesL t with
    | [] => [[c]]
    | h :: r => (c :: h) :: r

/-- JS `str.replace(/\s+/g, ' ')`: collapse every whitespace run to a single
space. -/
def collapseWs : List Char → List Char
  | [] => []
  | c :: t =>
    let r := collapseWs t
    if isJsWs c then
      match r with
      | ' ' :: _ => r
      | _ => ' ' :: r
    else c :: r

/-- JS `str.split(/(?<=[.!?])\s+/)` on a whitespace-collapsed string: split at
each space preceded by `.`, `!` or `?`, consuming the space.  `acc` holds the
current segment reversed. -/
def splitAfterPunct (acc : List Char) : List Char → List (List Char)
  | [] => [acc.reverse]
  | c :: t =>
    if c == ' ' &&
        (match acc with
         | p :: _ => p == '.' || p == '!' || p == '?'
         | [] => false) then
      acc.reverse :: splitAfterPunct [] t
    else
      splitAfterPunct (c :: acc) t

/-- Literal global replacement, left to right (JS `replace(/lit/g, rep)` for a
literal pattern).  Fuel-driven so the definition reduces in the kernel; every
step consumes at least one character, so `fuel = length + 1` is exact. -/
def replaceAllF (pat rep : List Char) : Nat → List Char → List Char
  | 0, cs => cs
  | _ + 1, [] => []
  | fuel + 1, c :: t =>
    if !pat.isEmpty && pat.isPrefixOf (c :: t) then
      rep ++ replaceAllF pat rep fuel (t.drop (pat.length - 1))
    else
      c :: replaceAllF pat rep fuel t

/-- Literal global replacement with exact fuel. -/
def replaceAllL (pat rep cs : List Char) : List Char :=
  replaceAllF pat rep (cs.length + 1) cs

/-- Interpret a run of ASCII digits as a natural number. -/
def digitsToNat (cs : List Char) : Nat :=
  cs.foldl (fun a c => 10 * a + (c.toNat - 48)) 0

/-! ### The ingredient-line pattern
`/^([0-9]+(?:\.[0-9]+)?)\s*([a-zA-Zµμ]+)?\s*(.+)$/` with full JS backtracking
semantics: every quantifier is greedy, choice points backtrack most-recent
first, and the first overall success (groups included) is returned. -/

/-- The list `[n, n-1, …, 0]`: the candidate lengths of a greedy `*` quantifier whose
maximal munch is `n`, in the order the JS engine tries them. -/
def descRange : Nat → List Nat
  | 0 => [0]
  | n + 1 => (n + 1) :: descRange n

/-- The list `[n, n-1, …, 1]`: candidate lengths of a greedy `+` quantifier. -/
def descRange1 : Nat → List Nat
  | 0 => []
  | n + 1 => (n + 1) :: descRange1 n

/-- Tail `\s*(.+)$` after a committed unit-group choice `u`: greedy
whitespace, then the item group must be non-empty and all `.`-matchable. -/
def tryAfterUnit (u : Option (List Char)) (cs4 : List Char) :
    Option (Option (List Char) × List Char) :=
  (descRange (cs4.takeWhile isJsWs).length).findSome? fun dLen =>
    let e := cs4.drop dLen
    if !e.isEmpty && e.all isJsDot then some (u, e) else none

/-- Pattern `([a-zA-Zµμ]+)?\s*(.+)$` at a fixed whitespace split: the optional group
greedily tries every non-empty run length, longest first, then absence. -/
def tryAtB (cs3 : List Char) : Option (Option (List Char) × List Char) :=
  match (descRange1 (cs3.takeWhile isUnitChar).length).findSome? fun cLen =>
      tryAfterUnit (some (cs3.take cLen)) (cs3.drop cLen) with
  | some r => some r
  | none => tryAfterUnit none cs3

/-- Match `\s*([a-zA-Zµμ]+)?\s*(.+)$` against `cs`, returning the unit group
(if the optional group participated) and the item group. -/
def matchTail2 (cs : List Char) : Option (Option (List Char) × List Char) :=
  (descRange (cs.takeWhile isJsWs).length).findSome? fun bLen =>
    tryAtB (cs.drop bLen)

/-- The extra lengths a greedy `(?:\.[0-9]+)?` fraction can consume at the
given position, in trial order (longest first, then absent — absence is
appended by the caller). -/
def fracCandsOf : List Char → List Nat
  | '.' :: rest =>
    (descRange1 (rest.takeWhile isAsciiDigit).length).map (fun j => 1 + j)
  | _ => []

/-- Match the whole ingredient pattern against `cs` (anchored at both ends),
returning the three groups: quantity lexeme, optional unit, item. -/
def matchIngredientLine (cs : List Char) :
    Option (List Char × Option (List Char) × List Char) :=
  (descRange1 (cs.takeWhile isAsciiDigit).length).findSome? fun intLen =>
    (fracCandsOf (cs.drop intLen) ++ [0]).findSome? fun fLen =>
      (matchTail2 (cs.drop (intLen + fLen))).map
        fun (r : Option (List Char) × List Char) =>
          (cs.take (intLen + fLen), r.1, r.2)

/-- The exact mathematical value of a numeral lexeme `[0-9]+(\.[0-9]+)?`,
as the rational `int + frac / 10^k`.  The program stores `Number(m[1])`,
the IEEE-754 binary64 nearest to this value; the two agree exactly when
the value is binary64-representable (`jsExactDouble` below), which is the
hypothesis under which stored quantities are certified. -/
def ratOfLexeme (cs : List Char) : ℚ :=
  let ip := cs.takeWhile (fun c => c != '.')
  let fp := (cs.dropWhile (fun c => c != '.')).drop 1
  mkRat (digitsToNat ip * 10 ^ fp.length + digitsToNat fp) (10 ^ fp.length)

/-- A rational exactly representable as an IEEE-754 binary64: an integer of
at most 53 bits scaled by an in-range power of two.  `Number` parsing
rounds a numeral's exact value to the nearest binary64, so on these values
it returns the exact value and `ratOfLexeme` coincides with the stored
quantity.  Every integer below `2 ^ 53` qualifies (take `e = 0`). -/
def jsExactDouble (q : ℚ) : Prop :=
  ∃ (m : ℤ) (e : ℤ), |m| < 2 ^ 53 ∧ -1074 ≤ e ∧ e ≤ 971 ∧
    q = (m : ℚ) * (2 : ℚ) ^ e

/-- A numeral lexeme `[0-9]+(\.[0-9]+)?` assembled from its integer digits
and (possibly empty) fraction digits. -/
def numLexeme (ds fs : List Char) : List Char :=
  ds ++ (if fs = [] then [] else '.' :: fs)

/-! ### Data model (field names per the source) -/

structure Ingredient where
  quantity : Option ℚ
  unit : Option String
  item : String
deriving DecidableEq, Repr

structure Step where
  n : Nat
  text : String
deriving DecidableEq, Repr

structure Recipe where
  title : String
  servings : Nat
  timeTotal : String
  timeActive : String
  ingredients : List Ingredient
  equipment : List String
  steps : List Step
  notes : List String
  allergens : List String
deriving DecidableEq, Repr

/-! ### `extractIngredients` -/

/-- Pattern `/^ingredients\b|^ingredientes\b/i`. -/
def isIngHeader (l : String) : Bool :=
  let cs := l.toList
  let word (kw : List Char) : Bool :=
    ciStarts kw cs &&
      (match cs.drop kw.length with
       | [] => true
       | c :: _ => !isWordChar c)
  word "ingredients".toList || word "ingredientes".toList

/-- Pattern `/^\s*(instructions|method|directions)\b/i`. -/
def isInstrHeader (l : String) : Bool :=
  let cs := l.toList.dropWhile isJsWs
  let word (kw : List Char) : Bool :=
    ciStarts kw cs &&
      (match cs.drop kw.length with
       | [] => true
       | c :: _ => !isWordChar c)
  word "instructions".toList || word "method".toList || word "directions".toList

/-- Pattern `/^\s*-{2,}\s*$/`. -/
def isDashRun (l : String) : Bool :=
  let a := l.toList.dropWhile isJsWs
  let b := a.takeWhile (fun c => c == '-')
  2 ≤ b.length && ((a.drop b.length).dropWhile isJsWs).isEmpty

/-- Test `/[a-zA-Z]/.test(line)`. -/
def hasAlpha (l : String) : Bool :=
  l.toList.any isAsciiLetter

/-- Replacement `line.replace(/^[\-•\*]\s*/, '')`. -/
def stripBullet (l : String) : String :=
  match l.toList with
  | c :: t =>
    if c == '-' || c == '•' || c == '*' then String.mk (t.dropWhile isJsWs)
    else l
  | [] => l

/-- Parse one candidate line into an `Ingredient`, per the body of the loop in
`extractIngredients`. -/
def parseIngLine (l : String) : Ingredient :=
  match matchIngredientLine l.toList with
  | some (q, u, e) =>
    { quantity := some (ratOfLexeme q)
      unit := u.map String.mk
      item := String.mk e }
  | none =>
    { quantity := none, unit := none, item := stripBullet l }

/-- The split-trim-filter producing the non-empty trimmed lines of the
description. -/
def ingLines (d : String) : List String :=
  ((splitLinesL d.toList).map (fun cs => String.mk (trimJS cs))).filter
    (fun s => s ≠ "")

/-- Scan `lines.findIndex(isIngHeader)` followed by `slice(startIdx + 1)`; if no
header is found the whole line set is scanned. -/
def ingFind : List String → Option (List String)
  | [] => none
  | l :: t => if isIngHeader l then some t else ingFind t

def ingCandidates (ls : List String) : List String :=
  match ingFind ls with
  | some tail => tail
  | none => ls

/-- The scanning loop of `extractIngredients`: skip dash-runs and
letter-free lines, stop at an instructions header, cap at 50 items.
`count` is the number of items already emitted. -/
def ingLoop : List String → Nat → List Ingredient
  | [], _ => []
  | l :: t, count =>
    if isDashRun l then ingLoop t count
    else if isInstrHeader l then []
    else if !hasAlpha l then ingLoop t count
    else
      let item := parseIngLine l
      if 50 ≤ count + 1 then [item] else item :: ingLoop t (count + 1)

/-- Function `extractIngredients` from the source. -/
def extractIngredients (description : String) : List Ingredient :=
  ingLoop (ingCandidates (ingLines description)) 0

/-! ### `extractSteps` -/

/-- The fixed cooking-cue vocabulary of
`/(add|mix|stir|combine|cook|bake|boil|simmer|fry|heat|season|chop|slice|blend|pour|spread|press|marinate|assemble|serve)/i`. -/
def cueWords : List String :=
  ["add", "mix", "stir", "combine", "cook", "bake", "boil", "simmer", "fry",
   "heat", "season", "chop", "slice", "blend", "pour", "spread", "press",
   "marinate", "assemble", "serve"]

/-- Case-insensitive substring test of the cue alternation. -/
def cueTest (s : String) : Bool :=
  let low := s.toList.map asciiLower
  cueWords.any fun w => hasSub w.toList low

/-- Whitespace-normalise, split into sentences after `[.!?]`, trim, drop
empties — the sentence list of `extractSteps`. -/
def sentencesOf (t : String) : List String :=
  ((splitAfterPunct [] (collapseWs t.toList)).map
      (fun cs => String.mk (trimJS cs))).filter (fun s => s ≠ "")

/-- Replacement `s.replace(/^\d+[:\.)]\s*/, '')`: strip one leading numeric cue-id such
as `3:` / `3.` / `3)` plus trailing whitespace. -/
def stripStepNum (cs : List Char) : List Char :=
  let d := cs.takeWhile isAsciiDigit
  if d.isEmpty then cs
  else
    match cs.drop d.length with
    | c :: t =>
      if c == ':' || c == '.' || c == ')' then t.dropWhile isJsWs else cs
    | [] => cs

/-- The `capitalize` helper of the source (first character upper-cased). -/
def capitalizeJS (s : String) : String :=
  match s.toList with
  | [] => ""
  | c :: t => String.mk (asciiUpper c :: t)

/-- The transformation applied to each kept sentence inside the loop. -/
def stepTransform1 (s : String) : String :=
  capitalizeJS (String.mk (stripStepNum s.toList))

/-- The final `s.replace(/^([a-z])/, …toUpperCase())` pass. -/
def secondCap (s : String) : String :=
  match s.toList with
  | c :: t => if isAsciiLower c then String.mk (asciiUpper c :: t) else s
  | [] => s

/-- The picking loop of `extractSteps`: keep cue sentences (transformed),
break once 12 are kept.  `count` is the number already kept. -/
def pickSteps : List String → Nat → List String
  | [], _ => []
  | s :: t, count =>
    if cueTest s then
      stepTransform1 s :: (if 12 ≤ count + 1 then [] else pickSteps t (count + 1))
    else if 12 ≤ count then []
    else pickSteps t count

/-- Function `extractSteps` from the source. -/
def extractSteps (text : String) : List String :=
  if text = "" then ["Review ingredients and steps from the video."]
  else
    let sents := sentencesOf text
    let picked := pickSteps sents 0
    let picked2 := if picked = [] then [sents.headD "Follow the video steps."]
                   else picked
    picked2.map secondCap

/-! ### `synthesizeRecipe`, renderers, `fallbackRecipe` -/

/-- Function `synthesizeRecipe` from the source (`input.transcriptText ||
input.description` selects the description when the transcript is empty). -/
def synthesizeRecipe (title description transcriptText : String) : Recipe :=
  let steps := extractSteps (if transcriptText = "" then description
                             else transcriptText)
  { title := if title = "" then "Recipe" else title
    servings := 4
    timeTotal := "—"
    timeActive := "—"
    ingredients := extractIngredients description
    equipment := []
    steps := steps.enum.map (fun p => { n := p.1 + 1, text := p.2 })
    notes := []
    allergens := [] }

/-- JS number-to-string for a quantity.  Exact for integral values, which are
the only quantities the verified claims render. -/
def qToString (q : ℚ) : String :=
  if q.den = 1 then toString q.num
  else toString q.num ++ "/" ++ toString q.den

/-- One rendered ingredient line, shared by both renderers:
```- ${i.quantity ?? ''} ${i.unit ?? ''} ${i.item}`.trim()``. -/
def ingLineOut (i : Ingredient) : String :=
  String.mk (trimJS ("- " ++ (i.quantity.map qToString).getD "" ++ " " ++
    i.unit.getD "" ++ " " ++ i.item).toList)

/-- One rendered step line: `` `${s.n}. ${s.text}` ``. -/
def stepLineOut (s : Step) : String :=
  toString s.n ++ ". " ++ s.text

/-- Function `renderMarkdown` from the source. -/
def renderMarkdown (r : Recipe) : String :=
  "# " ++ r.title ++ "\n\n**Servings:** " ++ toString r.servings ++
  "\n\n\n## Ingredients\n" ++
  String.intercalate "\n" (r.ingredients.map ingLineOut) ++
  "\n\n## Instructions\n" ++
  String.intercalate "\n" (r.steps.map stepLineOut) ++ "\n"

/-- Function `renderTxt` from the source. -/
def renderTxt (r : Recipe) : String :=
  r.title ++ "\nServings: " ++ toString r.servings ++ "\n\nIngredients\n" ++
  String.intercalate "\n" (r.ingredients.map ingLineOut) ++
  "\n\nInstructions\n" ++
  String.intercalate "\n" (r.steps.map stepLineOut) ++ "\n"

/-- Function `fallbackRecipe` from the source. -/
def fallbackRecipe (message : String) : Recipe :=
  { title := "Recipe"
    servings := 2
    timeTotal := "—"
    timeActive := "—"
    ingredients := []
    equipment := []
    steps := [{ n := 1, text := message }]
    notes := []
    allergens := [] }

/-! ### JSON (`JSON.parse` / `safeJson`)

A faithful executable model of the JSON grammar accepted by `JSON.parse`:
strict string escapes, control characters rejected, strict number grammar,
duplicate object keys resolved last-wins.  Number lexemes are kept verbatim
(no navigation in the source ever consumes a JSON number).  `\uXXXX` escapes
are decoded, pairing surrogates; a lone surrogate (unrepresentable as a Lean
scalar value) is modelled as U+FFFD — no input exercised by the claims
contains one. -/

inductive Json where
  | null : Json
  | bool : Bool → Json
  | num : String → Json
  | str : String → Json
  | arr : List Json → Json
  | obj : List (String × Json) → Json
deriving Repr

def isJsonWs (c : Char) : Bool :=
  c == ' ' || c == '\t' || c == '\n' || c == '\r'

def hexVal (c : Char) : Option Nat :=
  if isAsciiDigit c then some (c.toNat - 48)
  else if 97 ≤ c.toNat && c.toNat ≤ 102 then some (c.toNat - 87)
  else if 65 ≤ c.toNat && c.toNat ≤ 70 then some (c.toNat - 55)
  else none

def hex4 (a b c d : Char) : Option Nat := do
  let a ← hexVal a
  let b ← hexVal b
  let c ← hexVal c
  let d ← hexVal d
  pure (((a * 16 + b) * 16 + c) * 16 + d)

/-- Decode a (possibly surrogate) code unit into a scalar, U+FFFD for lone
surrogates. -/
def unitChar (n : Nat) : Char :=
  if 0xD800 ≤ n && n ≤ 0xDFFF then Char.ofNat 0xFFFD else Char.ofNat n

/-- JSON string body parser: the input starts right after the opening quote;
returns the decoded content and the characters after the closing quote.
Fuel-driven (every step consumes at least one character, so
`fuel = length + 1` suffices). -/
def jstrF (acc : List Char) : Nat → List Char → Option (String × List Char)
  | 0, _ => none
  | _ + 1, [] => none
  | _ + 1, '"' :: t => some (String.mk acc.reverse, t)
  | fuel + 1, '\\' :: t =>
    match t with
    | '"' :: r => jstrF ('"' :: acc) fuel r
    | '\\' :: r => jstrF ('\\' :: acc) fuel r
    | '/' :: r => jstrF ('/' :: acc) fuel r
    | 'b' :: r => jstrF ('\x08' :: acc) fuel r
    | 'f' :: r => jstrF ('\x0C' :: acc) fuel r
    | 'n' :: r => jstrF ('\n' :: acc) fuel r
    | 'r' :: r => jstrF ('\r' :: acc) fuel r
    | 't' :: r => jstrF ('\t' :: acc) fuel r
    | 'u' :: a :: b :: c :: d :: r =>
      match hex4 a b c d with
      | none => none
      | some hi =>
        if 0xD800 ≤ hi && hi ≤ 0xDBFF then
          match r with
          | '\\' :: 'u' :: e :: f :: g :: h :: r2 =>
            match hex4 e f g h with
            | some lo =>
              if 0xDC00 ≤ lo && lo ≤ 0xDFFF then
                jstrF (Char.ofNat (0x10000 + (hi - 0xD800) * 0x400 +
                  (lo - 0xDC00)) :: acc) fuel r2
              else jstrF (unitChar lo :: unitChar hi :: acc) fuel r2
            | none => none
          | _ => jstrF (unitChar hi :: acc) fuel r
        else jstrF (unitChar hi :: acc) fuel r
    | _ => none
  | fuel + 1, c :: t => if c.toNat < 0x20 then none else jstrF (c :: acc) fuel t

/-- JSON string body parse with exact fuel. -/
def jstr (acc : List Char) (cs : List Char) : Option (String × List Char) :=
  jstrF acc (cs.length + 1) cs

/-- Strict JSON number lexer: `-?(0|[1-9][0-9]*)(\.[0-9]+)?([eE][+-]?[0-9]+)?`.
Returns the lexeme and the remaining input. -/
def jsonNum (cs : List Char) : Option (String × List Char) :=
  let core (cs : List Char) : Option (List Char × List Char) :=
    match cs with
    | '0' :: r => some (['0'], r)
    | c :: r =>
      if 49 ≤ c.toNat && c.toNat ≤ 57 then
        let ds := r.takeWhile isAsciiDigit
        some (c :: ds, r.drop ds.length)
      else none
    | [] => none
  let frac (cs : List Char) : Option (List Char × List Char) :=
    match cs with
    | '.' :: r =>
      let ds := r.takeWhile isAsciiDigit
      if ds.isEmpty then none else some ('.' :: ds, r.drop ds.length)
    | _ => some ([], cs)
  let expPart (cs : List Char) : Option (List Char × List Char) :=
    match cs with
    | c :: r =>
      if c == 'e' || c == 'E' then
        let (sgn, r2) : List Char × List Char :=
          match r with
          | s :: r2 => if s == '+' || s == '-' then ([s], r2) else ([], r)
          | [] => ([], r)
        let ds := r2.takeWhile isAsciiDigit
        if ds.isEmpty then none else some (c :: (sgn ++ ds), r2.drop ds.length)
      else some ([], cs)
    | [] => some ([], cs)
  match cs with
  | '-' :: r => do
    let (i, r1) ← core r
    let (f, r2) ← frac r1
    let (e, r3) ← expPart r2
    pure (String.mk ('-' :: (i ++ f ++ e)), r3)
  | _ => do
    let (i, r1) ← core cs
    let (f, r2) ← frac r1
    let (e, r3) ← expPart r2
    pure (String.mk (i ++ f ++ e), r3)

mutual

/-- JSON value parser.  Fuel-driven: every fuel decrement crosses at least one
consumed character, so `fuel = length + 2` always suffices. -/
def jsonVal : Nat → List Char → Option (Json × List Char)
  | 0, _ => none
  | fuel + 1, cs =>
    let cs := cs.dropWhile isJsonWs
    match cs with
    | 'n' :: 'u' :: 'l' :: 'l' :: r => some (.null, r)
    | 't' :: 'r' :: 'u' :: 'e' :: r => some (.bool true, r)
    | 'f' :: 'a' :: 'l' :: 's' :: 'e' :: r => some (.bool false, r)
    | '"' :: r => (jstr [] r).map fun (p : String × List Char) => (.str p.1, p.2)
    | '[' :: r =>
      (match (r.dropWhile isJsonWs) with
       | ']' :: r2 => some (.arr [], r2)
       | _ =>
         match jsonVal fuel r with
         | none => none
         | some (v, r1) =>
           (jsonArrRest fuel r1 [v]).map
             fun (p : List Json × List Char) => (.arr p.1, p.2))
    | '\x7b' :: r =>
      (match (r.dropWhile isJsonWs) with
       | '\x7d' :: r2 => some (.obj [], r2)
       | _ =>
         match jsonPair fuel r with
         | none => none
         | some (kv, r1) =>
           (jsonObjRest fuel r1 [kv]).map
             fun (p : List (String × Json) × List Char) => (.obj p.1, p.2))
    | _ => (jsonNum cs).map fun (p : String × List Char) => (.num p.1, p.2)

/-- Array continuation after at least one element (accumulator reversed). -/
def jsonArrRest : Nat → List Char → List Json → Option (List Json × List Char)
  | 0, _, _ => none
  | fuel + 1, cs, acc =>
    match cs.dropWhile isJsonWs with
    | ']' :: r => some (acc.reverse, r)
    | ',' :: r =>
      match jsonVal fuel r with
      | none => none
      | some (v, r1) => jsonArrRest fuel r1 (v :: acc)
    | _ => none

/-- One `"key" : value` member. -/
def jsonPair : Nat → List Char → Option ((String × Json) × List Char)
  | 0, _ => none
  | fuel + 1, cs =>
    match cs.dropWhile isJsonWs with
    | '"' :: r =>
      match jstr [] r with
      | none => none
      | some (k, r1) =>
        match r1.dropWhile isJsonWs with
        | ':' :: r2 =>
          (jsonVal fuel r2).map
            fun (p : Json × List Char) => ((k, p.1), p.2)
        | _ => none
    | _ => none

/-- Object continuation after at least one member (accumulator reversed). -/
def jsonObjRest : Nat → List Char → List (String × Json) →
    Option (List (String × Json) × List Char)
  | 0, _, _ => none
  | fuel + 1, cs, acc =>
    match cs.dropWhile isJsonWs with
    | '\x7d' :: r => some (acc.reverse, r)
    | ',' :: r =>
      match jsonPair fuel r with
      | none => none
      | some (kv, r1) => jsonObjRest fuel r1 (kv :: acc)
    | _ => none

end

/-- Model of `JSON.parse`: whole-input parse, trailing whitespace only. -/
def parseJson (s : String) : Option Json :=
  match jsonVal (s.length + 2) s.toList with
  | some (v, r) => if (r.dropWhile isJsonWs).isEmpty then some v else none
  | none => none

/-- Function `safeJson` from the source: `JSON.parse` with the exception swallowed. -/
def safeJson (s : String) : Option Json := parseJson s

/-- Member access with JS duplicate-key semantics (last one wins); `none` on
non-objects (`undefined` / a thrown member access are both folded into the
optional-chaining model of the call sites, which all use `?.`). -/
def Json.getField (j : Json) (k : String) : Option Json :=
  match j with
  | .obj fs => fs.foldl (fun acc p => if p.1 = k then some p.2 else acc) none
  | _ => none

/-- A member that must be a string to be used as one (the source reads only
string-valued fields; a non-string value is modelled as absent). -/
def Json.getStrField (j : Json) (k : String) : Option String :=
  match j.getField k with
  | some (.str s) => some s
  | _ => none

def Json.asArr : Json → Option (List Json)
  | .arr xs => some xs
  | _ => none

/-! ### The scanners of `fetchYouTubePage` -/

/-- Try `/ytInitialPlayerResponse\s*=\s*(\{[\s\S]*?\});/` at the current
position: literal marker, greedy whitespace, `=`, greedy whitespace, `\x7b`,
then the lazy body up to the first `\x7d;`. -/
def fprClose (acc : List Char) : List Char → Option (List Char)
  | a :: b :: t =>
    if a == '\x7d' && b == ';' then some acc.reverse
    else fprClose (a :: acc) (b :: t)
  | _ => none

def fprAt (cs : List Char) : Option String :=
  if "ytInitialPlayerResponse".toList.isPrefixOf cs then
    let r1 := (cs.drop 23).dropWhile isJsWs
    match r1 with
    | '=' :: r2 =>
      (match r2.dropWhile isJsWs with
       | '\x7b' :: r3 =>
         (fprClose [] r3).map fun body =>
           String.mk ('\x7b' :: (body ++ ['\x7d']))
       | _ => none)
    | _ => none
  else none

/-- Leftmost match of the player-response pattern (group 1). -/
def fprScan : List Char → Option String
  | [] => none
  | c :: t =>
    match fprAt (c :: t) with
    | some g => some g
    | none => fprScan t

def findPlayerResponse (html : String) : Option String :=
  fprScan html.toList

/-- Try `/<meta\s+property="og:title"\s+content="([^"]+)"/i` at the current
position. -/
def ogAt (cs : List Char) : Option String :=
  if ciStarts "<meta".toList cs then
    let r1 := cs.drop 5
    let w1 := r1.takeWhile isJsWs
    if w1.isEmpty then none
    else
      let r2 := r1.drop w1.length
      if ciStarts "property=\"og:title\"".toList r2 then
        let r3 := r2.drop 19
        let w2 := r3.takeWhile isJsWs
        if w2.isEmpty then none
        else
          let r4 := r3.drop w2.length
          if ciStarts "content=\"".toList r4 then
            let r5 := r4.drop 9
            let g := r5.takeWhile (fun c => c != '"')
            if g.isEmpty then none
            else
              match r5.drop g.length with
              | '"' :: _ => some (String.mk g)
              | _ => none
          else none
      else none
  else none

def ogScan : List Char → Option String
  | [] => none
  | c :: t =>
    match ogAt (c :: t) with
    | some g => some g
    | none => ogScan t

def ogTitleSeek (html : String) : Option String :=
  ogScan html.toList

/-- Continuation of `/"shortDescription":"([\s\S]*?)"\s*,\s*"isCrawlable"/`
after the group: `"` , greedy whitespace, `,`, greedy whitespace, literal
`"isCrawlable"`. -/
def sdTail (t : List Char) : Bool :=
  match t.dropWhile isJsWs with
  | ',' :: t1 =>
    "\"isCrawlable\"".toList.isPrefixOf (t1.dropWhile isJsWs)
  | _ => false

/-- Lazy group scan: shortest content whose following context matches. -/
def sdContent (acc : List Char) : List Char → Option (List Char)
  | [] => none
  | c :: t =>
    if c == '"' && sdTail t then some acc.reverse
    else sdContent (c :: acc) t

def sdAt (cs : List Char) : Option (List Char) :=
  if "\"shortDescription\":\"".toList.isPrefixOf cs then
    sdContent [] (cs.drop 20)
  else none

def sdScan : List Char → Option (List Char)
  | [] => none
  | c :: t =>
    match sdAt (c :: t) with
    | some g => some g
    | none => sdScan t

/-- Leftmost match of the escaped-short-description pattern (group 1). -/
def shortDescSeek (html : String) : Option (List Char) :=
  sdScan html.toList

/-- The two replacements applied to the captured group:
`.replace(/\\n/g, '\n').replace(/\\"/g, '"')`. -/
def sdUnescape (cs : List Char) : List Char :=
  replaceAllL ['\\', '"'] ['"'] (replaceAllL ['\\', 'n'] ['\n'] cs)

/-- Model of `JSON.parse('"' + content + '"')`: `none` models the thrown
`SyntaxError`.  A successful parse of a quote-led document is always a
string. -/
def jsonParseWrapped (content : List Char) : Option String :=
  match parseJson (String.mk ('"' :: (content ++ ['"']))) with
  | some (Json.str s) => some s
  | _ => none

/-- The pure part of `fetchYouTubePage`, as a function of the fetched page
text.  `Except.error ()` models an exception escaping the function — which
happens exactly when the unguarded `JSON.parse` of the escaped-description
fallback throws. -/
def fetchYouTubePageParse (html : String) : Except Unit (String × String) :=
  let pr : Option Json := (findPlayerResponse html).bind safeJson
  let title0 := ((pr.bind (fun j => j.getField "videoDetails")).bind
    (fun j => j.getStrField "title")).getD ""
  let desc0 := ((pr.bind (fun j => j.getField "videoDetails")).bind
    (fun j => j.getStrField "shortDescription")).getD ""
  let title := if title0 = "" then (ogTitleSeek html).getD "Recipe" else title0
  if desc0 = "" then
    match shortDescSeek html with
    | some content =>
      if content.isEmpty then Except.ok (title, "")
      else
        match jsonParseWrapped (sdUnescape content) with
        | some d => Except.ok (title, d)
        | none => Except.error ()
    | none => Except.ok (title, "")
  else Except.ok (title, desc0)

/-! ### Network model -/

/-- The observable outcome of one `fetch(url)` + `.text()`:
`ok` status flag and body text.  `Except.error ()` models a thrown
network/transport error. -/
structure FetchResp where
  ok : Bool
  body : String
deriving DecidableEq, Repr

/-- A network oracle: what each URL returns during this job. -/
def NetFetch : Type := String → Except Unit FetchResp

/-- Function `fetchYouTubePage` from the source: fetch the page (any throw
propagates), then parse. -/
def fetchYouTubePage (url : String) (net : NetFetch) :
    Except Unit (String × String) := do
  let resp ← net url
  fetchYouTubePageParse resp.body

/-! ### `tryFetchYouTubeTranscript` -/

/-- Pattern `/[?&]v=([a-zA-Z0-9_-]{6,})/`: the video-id class. -/
def isIdChar (c : Char) : Bool :=
  isAsciiLetter c || isAsciiDigit c || c == '_' || c == '-'

def vidAt : List Char → Option String
  | 'v' :: '=' :: r =>
    let run := r.takeWhile isIdChar
    if 6 ≤ run.length then some (String.mk run) else none
  | _ => none

def vidScan : List Char → Option String
  | [] => none
  | c :: t =>
    if c == '?' || c == '&' then
      match vidAt t with
      | some v => some v
      | none => vidScan t
    else vidScan t

/-- Extract the video id from the URL; `none` when the pattern is absent. -/
def extractVideoId (url : String) : Option String :=
  vidScan url.toList

/-- Lazy body of `/<text[^>]*>([\s\S]*?)<\/text>/`: shortest content followed
by the closing literal; also returns the rest of the input after the match. -/
def ttClose (acc : List Char) : List Char → Option (List Char × List Char)
  | [] => none
  | c :: t =>
    if "</text>".toList.isPrefixOf (c :: t) then
      some (acc.reverse, (c :: t).drop 7)
    else ttClose (c :: acc) t

def ttAt (cs : List Char) : Option (List Char × List Char) :=
  if "<text".toList.isPrefixOf cs then
    let r1 := cs.drop 5
    let attrs := r1.takeWhile (fun c => c != '>')
    match r1.drop attrs.length with
    | '>' :: r2 => ttClose [] r2
    | _ => none
  else none

/-- Global scan of the caption-item regex (`matchAll`), fuel-driven (each
iteration advances at least one character, so `fuel = length + 1` suffices). -/
def ttScanF : Nat → List Char → List (List Char)
  | 0, _ => []
  | _ + 1, [] => []
  | fuel + 1, c :: t =>
    match ttAt (c :: t) with
    | some (g, rest) => g :: ttScanF fuel rest
    | none => ttScanF fuel t

def textTagMatches (xml : String) : List (List Char) :=
  ttScanF (xml.length + 1) xml.toList

/-- Function `decodeHtml` from the source: the five entity replacements, in order. -/
def decodeHtml (s : String) : String :=
  String.mk (replaceAllL "&#39;".toList ['\'']
    (replaceAllL "&quot;".toList ['"']
      (replaceAllL "&gt;".toList ['>']
        (replaceAllL "&lt;".toList ['<']
          (replaceAllL "&amp;".toList ['&'] s.toList)))))

/-- Join `items.join(' ').replace(/\s+/g, ' ').trim()`. -/
def joinNormalize (items : List String) : String :=
  String.mk (trimJS (collapseWs (String.intercalate " " items).toList))

/-- Strip `/<[^>]+>/g` (tag markup) from a caption line. -/
def stripTagsF : Nat → List Char → List Char
  | 0, cs => cs
  | _ + 1, [] => []
  | fuel + 1, c :: t =>
    if c == '<' then
      let inner := t.takeWhile (fun x => x != '>')
      if !inner.isEmpty then
        match t.drop inner.length with
        | '>' :: r => stripTagsF fuel r
        | _ => c :: stripTagsF fuel t
      else c :: stripTagsF fuel t
    else c :: stripTagsF fuel t

/-- Function `vttToPlainText` from the source: drop WEBVTT headers, cue timestamps and
numeric cue ids, strip tags, join with spaces. -/
def vttToPlainText (vtt : String) : String :=
  let lines := (splitLinesL vtt.toList).map String.mk
  let keep := lines.filter fun l =>
    !(l = "" || ciStarts "WEBVTT".toList l.toList ||
      hasSub "-->".toList l.toList ||
      (!l.toList.isEmpty && l.toList.all isAsciiDigit))
  String.intercalate " " (keep.map fun l =>
    String.mk (stripTagsF (l.length + 1) l.toList))

/-- Test `/^(en|en-)/i.test(code)` reduces to a case-insensitive `en` test at the
start (likewise for `es`).  A missing `languageCode` is coerced by JS to the
string `"undefined"`, which matches neither. -/
def trackLang (t : Json) : String :=
  (t.getStrField "languageCode").getD "undefined"

def isEnTrack (t : Json) : Bool := ciStarts "en".toList (trackLang t).toList
def isEsTrack (t : Json) : Bool := ciStarts "es".toList (trackLang t).toList

/-- The primary caption path of `tryFetchYouTubeTranscript` (the body of its
`try`): `.error ()` = the try block threw, `.ok none` = it completed without
returning, `.ok (some s)` = it returned transcript `s`. -/
def primaryCore (vid : String) (net : NetFetch) :
    Except Unit (Option String) := do
  let watchResp ← net ("https://www.youtube.com/watch?v=" ++ vid)
  let pr : Option Json := (findPlayerResponse watchResp.body).bind safeJson
  let tracks :=
    (((pr.bind (fun j => j.getField "captions")).bind
        (fun j => j.getField "playerCaptionsTracklistRenderer")).bind
      (fun j => j.getField "captionTracks")).bind Json.asArr
  match tracks with
  | some ts =>
    if ts.isEmpty then pure none
    else
      let preferred :=
        match ts.find? isEnTrack with
        | some t => t
        | none =>
          match ts.find? isEsTrack with
          | some t => t
          | none => ts.headD .null
      match preferred.getStrField "baseUrl" with
      | some burl =>
        if burl = "" then pure none
        else do
          let vttUrl := burl ++
            (if hasSub ['?'] burl.toList then "&" else "?") ++ "fmt=vtt"
          let vttResp ← net vttUrl
          if vttResp.ok then
            let merged := vttToPlainText vttResp.body
            if String.mk (trimJS merged.toList) ≠ "" then
              return (some merged)
          let xmlResp ← net burl
          if xmlResp.ok then
            let items := (textTagMatches xmlResp.body).map
              (fun g => decodeHtml (String.mk g))
            if !items.isEmpty then
              return (some (joinNormalize items))
          pure none
      | none => pure none
  | none => pure none

/-- The fixed legacy language list. -/
def ytLangs : List String := ["en", "en-US", "en-GB", "es", "es-419"]

/-- One legacy `timedtext` attempt; `none` covers a thrown fetch, a non-ok
status, a body without `<text`, and an empty item list alike. -/
def legacyAttempt (vid lang : String) (net : NetFetch) : Option String :=
  match net ("https://www.youtube.com/api/timedtext?lang=" ++ lang ++
      "&v=" ++ vid) with
  | Except.error _ => none
  | Except.ok r =>
    if !r.ok then none
    else if !hasSub "<text".toList r.body.toList then none
    else
      let items := (textTagMatches r.body).map
        (fun g => decodeHtml (String.mk g))
      if items.isEmpty then none else some (joinNormalize items)

/-- Function `tryFetchYouTubeTranscript` from the source: total in the oracle — the
primary path's exceptions are swallowed, each legacy attempt's exceptions are
swallowed, and exhaustion returns the empty string. -/
def tryFetchYouTubeTranscript (url : String) (net : NetFetch) : String :=
  match extractVideoId url with
  | none => ""
  | some vid =>
    match primaryCore vid net with
    | Except.ok (some s) => s
    | _ => (ytLangs.findSome? (fun lang => legacyAttempt vid lang net)).getD ""

/-! ### Job orchestrator (`/start-job`, `/get-recipe`) -/

/-- One stored job result (`recipe_json`, `markdown`, `txt`). -/
structure JobResult where
  recipe_json : Recipe
  markdown : String
  txt : String
deriving DecidableEq, Repr

inductive SourceType where
  | file : SourceType
  | url : SourceType
deriving DecidableEq, Repr

structure UploadRecord where
  source_type : SourceType
  source_url : Option String
  filename : String
  size_bytes : Nat
deriving DecidableEq, Repr

/-- The result stored by the async pipeline's success branch. -/
def successStored (title description transcriptText : String) : JobResult :=
  let recipe := synthesizeRecipe title description transcriptText
  { recipe_json := recipe
    markdown := renderMarkdown recipe
    txt := renderTxt recipe }

/-- The result stored by the async pipeline's `catch` branch. -/
def failureStored : JobResult :=
  { recipe_json := fallbackRecipe "Failed to extract content"
    markdown := "# Error"
    txt := "Error" }

/-- The result stored synchronously for a file source or an unknown
upload id. -/
def fileStored : JobResult :=
  { recipe_json := fallbackRecipe "File processing not implemented"
    markdown := "# Pending"
    txt := "Pending" }

/-- What `/start-job` does after looking up the upload record: either launch
the asynchronous pipeline against a URL, or store a fallback result
immediately (synchronously, before responding — no asynchronous work). -/
inductive StartJobAction where
  | launch : String → StartJobAction
  | immediate : JobResult → StartJobAction
deriving DecidableEq, Repr

/-- The branch on `upload?.source_type === 'url' && upload.source_url`
(an empty `source_url` is falsy). -/
def startJobAction (upload : Option UploadRecord) : StartJobAction :=
  match upload with
  | some u =>
    match u.source_type, u.source_url with
    | SourceType.url, some s =>
      if s = "" then StartJobAction.immediate fileStored
      else StartJobAction.launch s
    | _, _ => StartJobAction.immediate fileStored
  | none => StartJobAction.immediate fileStored

/-- The result eventually stored by the launched pipeline, as a function of
the network oracle: page resolution, then transcript, then synthesis and the
two renderings; any uncaught throw stores the failure fallback. -/
def jobPipeline (url : String) (net : NetFetch) : JobResult :=
  match fetchYouTubePage url net with
  | Except.error _ => failureStored
  | Except.ok (title, description) =>
    successStored title description (tryFetchYouTubeTranscript url net)

/-- The `/get-recipe` response space. -/
inductive GetRecipeResponse where
  | badRequest : GetRecipeResponse
  | notReady : GetRecipeResponse
  | ok : JobResult → GetRecipeResponse
deriving DecidableEq, Repr

/-- Route `/get-recipe`: 400 without a job id, 425 "not ready" when nothing is
stored under the id, otherwise the stored result. -/
def getRecipe (jobId : Option String) (store : String → Option JobResult) :
    GetRecipeResponse :=
  match jobId with
  | none => GetRecipeResponse.badRequest
  | some j =>
    if j = "" then GetRecipeResponse.badRequest
    else
      match store j with
      | none => GetRecipeResponse.notReady
      | some r => GetRecipeResponse.ok r

/-! ### Concrete oracles and stores used by witnesses -/

/-- An oracle on which every fetch throws. -/
def netFail : NetFetch := fun _ => Except.error ()

/-- An oracle that answers every fetch with an ok response whose body is a
page without player JSON, og-title or short-description markers. -/
def netHello : NetFetch := fun _ => Except.ok { ok := true, body := "hello" }

/-- A result store holding one finished job, under id `"a"`. -/
def storeOne : String → Option JobResult :=
  fun j => if j = "a" then some fileStored else none

end RecipeApi

namespace RecipeApi

/-! ## Claims -/

/-- C9: when both the transcript and the description are empty strings,
recipe synthesis emits exactly one step, whose text is the generic
"review the source" placeholder. -/
theorem c9_empty_inputs_single_placeholder_step :
    (synthesizeRecipe "" "" "").steps =
      [{ n := 1, text := "Review ingredients and steps from the video." }] := by
  decide

/-- C1 counterexample: on the transcript of the claim, step extraction keeps
the first sentence as well — `"Preheat"` contains the cue word `"heat"` as a
substring — so the result is three steps, not the claimed two. -/
theorem c1_counterexample_first_sentence_kept :
    extractSteps "Preheat the oven. Add flour and stir gently. Serve warm." ≠
      ["Add flour and stir gently.", "Serve warm."] ∧
    extractSteps "Preheat the oven. Add flour and stir gently. Serve warm." =
      ["Preheat the oven.", "Add flour and stir gently.", "Serve warm."] := by
  decide

/-- C1 (amended): for the transcript of the claim (with empty title and
description), synthesis yields exactly the three steps
"Preheat the oven.", "Add flour and stir gently." and "Serve warm.",
the first sentence kept because "Preheat" contains the cue "heat". -/
theorem c1_amended_three_steps :
    (synthesizeRecipe "" ""
        "Preheat the oven. Add flour and stir gently. Serve warm.").steps =
      [{ n := 1, text := "Preheat the oven." },
       { n := 2, text := "Add flour and stir gently." },
       { n := 3, text := "Serve warm." }] := by
  decide

/-- C3 counterexample: on the pipeline-failure path the stored markdown is
the fixed string `"# Error"`, which is not the Markdown rendering of the
stored fallback recipe — the exports of that path are fabricated, not
derived. -/
theorem c3_counterexample_failure_path_not_derived :
    jobPipeline "u" netFail = failureStored ∧
    failureStored.markdown ≠ renderMarkdown failureStored.recipe_json ∧
    failureStored.txt ≠ renderTxt failureStored.recipe_json := by
  refine ⟨rfl, by decide, by decide⟩

/-- C3 (amended): on the success path the stored exports are derived from
the stored recipe: whenever page resolution succeeds, the stored markdown
equals the Markdown renderer applied to the stored recipe and the stored
text equals the plain-text renderer applied to it.  (The failure and
file/unknown paths instead store the fixed placeholder strings
"# Error"/"Error" and "# Pending"/"Pending".) -/
theorem c3_amended_success_path_derived (url : String) (net : NetFetch)
    (t d : String) (h : fetchYouTubePage url net = Except.ok (t, d)) :
    (jobPipeline url net).markdown =
      renderMarkdown (jobPipeline url net).recipe_json ∧
    (jobPipeline url net).txt = renderTxt (jobPipeline url net).recipe_json := by
  unfold jobPipeline
  rw [h]
  exact ⟨rfl, rfl⟩

/-- Witness for C3 (amended) at a concrete oracle whose page resolves. -/
theorem c3_amended_success_path_derived_witness :
    (jobPipeline "x" netHello).markdown =
      renderMarkdown (jobPipeline "x" netHello).recipe_json ∧
    (jobPipeline "x" netHello).txt =
      renderTxt (jobPipeline "x" netHello).recipe_json :=
  c3_amended_success_path_derived "x" netHello "Recipe" "" rfl

/-- C6: a start-job request whose upload record describes a file source, or
whose upload id matches no record, immediately and synchronously stores the
fallback result (no asynchronous work is launched), and that result's steps
are exactly one step carrying the not-implemented message. -/
theorem c6_file_or_unknown_immediate_fallback (upload : Option UploadRecord)
    (h : upload = none ∨
      ∃ u, upload = some u ∧ u.source_type = SourceType.file) :
    startJobAction upload = StartJobAction.immediate fileStored ∧
    fileStored.recipe_json.steps =
      [{ n := 1, text := "File processing not implemented" }] := by
  refine ⟨?_, rfl⟩
  rcases h with h | ⟨u, rfl, hu⟩
  · rw [h]; rfl
  · obtain ⟨st, su, fn, sz⟩ := u
    cases hu
    rfl

/-- Witness for C6 at the unknown-upload-id input. -/
theorem c6_file_or_unknown_immediate_fallback_witness :
    startJobAction none = StartJobAction.immediate fileStored ∧
    fileStored.recipe_json.steps =
      [{ n := 1, text := "File processing not implemented" }] :=
  c6_file_or_unknown_immediate_fallback none (Or.inl rfl)

/-- C7: for a job id with no stored result — never created or not yet
finished alike — result retrieval returns the "not ready" signal (never an
exception or a distinct "not found"), and once a result is stored for the id
it returns that stored result. -/
theorem c7_get_recipe_not_ready_or_stored
    (store : String → Option JobResult) (j : String) (hj : j ≠ "") :
    (store j = none →
      getRecipe (some j) store = GetRecipeResponse.notReady) ∧
    (∀ r, store j = some r →
      getRecipe (some j) store = GetRecipeResponse.ok r) := by
  constructor
  · intro h
    simp [getRecipe, hj, h]
  · intro r h
    simp [getRecipe, hj, h]

/-- Witness for C7: a store with one finished job answers "not ready" for an
absent id and the stored result for the present one. -/
theorem c7_get_recipe_not_ready_or_stored_witness :
    getRecipe (some "b") storeOne = GetRecipeResponse.notReady ∧
    getRecipe (some "a") storeOne = GetRecipeResponse.ok fileStored :=
  ⟨(c7_get_recipe_not_ready_or_stored storeOne "b" (by decide)).1 (by decide),
   (c7_get_recipe_not_ready_or_stored storeOne "a" (by decide)).2 fileStored
     (by decide)⟩

/-- A fetched page text on which the Source Resolver throws: no player JSON
and no og-title, and the escaped-short-description fallback captures `a\nb`,
whose unescaping produces a literal newline that `JSON.parse` rejects. -/
def htmlThrowing : String := "\"shortDescription\":\"a\\nb\",\"isCrawlable\""

/-- C2 counterexample: source resolution does not always return a
title/description pair — on `htmlThrowing` the unguarded `JSON.parse` of the
escaped-description fallback throws, and the exception escapes
`fetchYouTubePage`. -/
theorem c2_counterexample_resolver_throws :
    fetchYouTubePageParse htmlThrowing = Except.error () := by
  rfl

/-- C2 (amended): the player-JSON and og-title fallback steps swallow their
parse failures, and the only way resolution can fail is the unguarded
`JSON.parse` in the escaped-description fallback: whenever that parse is not
reached or succeeds, a title/description pair is returned; and when every
fallback misses, the title defaults to "Recipe" and the description to the
empty string. -/
theorem c2_amended_only_description_parse_throws (html : String)
    (h : ∀ c, shortDescSeek html = some c → c.isEmpty = false →
      jsonParseWrapped (sdUnescape c) ≠ none) :
    (∃ t d, fetchYouTubePageParse html = Except.ok (t, d)) ∧
    (findPlayerResponse html = none → ogTitleSeek html = none →
      shortDescSeek html = none →
      fetchYouTubePageParse html = Except.ok ("Recipe", "")) := by
  constructor
  · simp only [fetchYouTubePageParse]
    split
    · split
      · next content heq =>
        split
        · exact ⟨_, _, rfl⟩
        · next hne =>
          split
          · exact ⟨_, _, rfl⟩
          · next hnone =>
            exact absurd hnone (h content heq (by simpa using hne))
      · exact ⟨_, _, rfl⟩
    · exact ⟨_, _, rfl⟩
  · intro h1 h2 h3
    simp [fetchYouTubePageParse, h1, h2, h3, Json.getField]

/-- Witness for C2 (amended) at a page without any of the markers. -/
theorem c2_amended_only_description_parse_throws_witness :
    fetchYouTubePageParse "hello" = Except.ok ("Recipe", "") :=
  (c2_amended_only_description_parse_throws "hello"
      (by
        intro c hc _
        rw [show shortDescSeek "hello" = none from rfl] at hc
        cases hc)).2
    rfl rfl rfl

/-- C8: transcript retrieval is total over the network oracle and returns a
(possibly empty) string: a URL with no extractable video id yields the empty
string immediately, and when the primary caption path yields nothing
(throwing or completing without a transcript) and every legacy-endpoint
attempt over `en, en-US, en-GB, es, es-419` fails (throwing included), the
result is the empty string. -/
theorem c8_transcript_total_with_empty_fallback (url : String)
    (net : NetFetch) :
    (extractVideoId url = none → tryFetchYouTubeTranscript url net = "") ∧
    (∀ vid, extractVideoId url = some vid →
      (primaryCore vid net = Except.error () ∨
        primaryCore vid net = Except.ok none) →
      (∀ lang ∈ ytLangs, legacyAttempt vid lang net = none) →
      tryFetchYouTubeTranscript url net = "") := by
  constructor
  · intro h
    simp [tryFetchYouTubeTranscript, h]
  · intro vid hv hp hl
    have h1 := hl "en" (by simp [ytLangs])
    have h2 := hl "en-US" (by simp [ytLangs])
    have h3 := hl "en-GB" (by simp [ytLangs])
    have h4 := hl "es" (by simp [ytLangs])
    have h5 := hl "es-419" (by simp [ytLangs])
    have hfs : ytLangs.findSome? (fun lang => legacyAttempt vid lang net) =
        none := by
      simp [ytLangs, List.findSome?, h1, h2, h3, h4, h5]
    simp only [tryFetchYouTubeTranscript, hv]
    rcases hp with hp | hp <;> rw [hp] <;> simp [hfs]

/-- Witness for C8: an id-free URL, and a URL with an id against an oracle on
which every fetch throws, both yield the empty string. -/
theorem c8_transcript_total_with_empty_fallback_witness :
    tryFetchYouTubeTranscript "a" netFail = "" ∧
    tryFetchYouTubeTranscript "w?v=abcdef" netFail = "" :=
  ⟨(c8_transcript_total_with_empty_fallback "a" netFail).1 rfl,
   (c8_transcript_total_with_empty_fallback "w?v=abcdef" netFail).2 "abcdef"
     rfl (Or.inl rfl) (by decide)⟩

/-! ### Helper lemmas about the ingredient scan -/

lemma first_char_of_ciStarts {p : Char} {ps cs : List Char}
    (h : ciStarts (p :: ps) cs = true) :
    ∃ c t, cs = c :: t ∧ asciiLower p = asciiLower c := by
  cases cs with
  | nil => simp [ciStarts] at h
  | cons c t =>
    refine ⟨c, t, rfl, ?_⟩
    simp only [ciStarts, Bool.and_eq_true, beq_iff_eq] at h
    exact h.1

/-- An instructions header cannot be a dash-run (its first significant
character is a letter, not a dash). -/
lemma isDashRun_false_of_instr (l : String) (h : isInstrHeader l = true) :
    isDashRun l = false := by
  have hca : ∃ c t, l.toList.dropWhile isJsWs = c :: t ∧ c ≠ '-' := by
    simp only [isInstrHeader, Bool.or_eq_true, Bool.and_eq_true] at h
    rcases h with (⟨h1, _⟩ | ⟨h1, _⟩) | ⟨h1, _⟩
    · rw [show ("instructions".toList) = 'i' :: "nstructions".toList from rfl]
        at h1
      obtain ⟨c, t, hct, hl⟩ := first_char_of_ciStarts h1
      exact ⟨c, t, hct, fun hc => absurd (hc ▸ hl) (by decide)⟩
    · rw [show ("method".toList) = 'm' :: "ethod".toList from rfl] at h1
      obtain ⟨c, t, hct, hl⟩ := first_char_of_ciStarts h1
      exact ⟨c, t, hct, fun hc => absurd (hc ▸ hl) (by decide)⟩
    · rw [show ("directions".toList) = 'd' :: "irections".toList from rfl] at h1
      obtain ⟨c, t, hct, hl⟩ := first_char_of_ciStarts h1
      exact ⟨c, t, hct, fun hc => absurd (hc ▸ hl) (by decide)⟩
  obtain ⟨c, t, hct, hc⟩ := hca
  have hct2 : List.dropWhile isJsWs l.data = c :: t := hct
  have hbeq : (c == '-') = false := beq_eq_false_iff_ne.mpr hc
  simp [isDashRun, hct, hct2, List.takeWhile_cons, hbeq]

/-- The `findIndex` + `slice` steps skip a header-free block and land right after the
first ingredients header. -/
lemma ingFind_skip (pre X : List String) (hd : String)
    (hpre : ∀ l ∈ pre, isIngHeader l = false) (hhd : isIngHeader hd = true) :
    ingFind (pre ++ hd :: X) = some X := by
  induction pre with
  | nil => simp [ingFind, hhd]
  | cons a t ih =>
    have ha : isIngHeader a = false := hpre a (by simp)
    have ht : ∀ l ∈ t, isIngHeader l = false := fun l hl => hpre l (by simp [hl])
    simp [ingFind, ha, ih ht]

/-- The scanning loop over a valid section followed by an instructions
header: it emits one parsed record per line, capped at the remaining
capacity. -/
lemma ingLoop_section (mid : List String) (instr : String) (X : List String)
    (count : Nat) (hc : count < 50)
    (hmid : ∀ l ∈ mid, isDashRun l = false ∧ isInstrHeader l = false ∧
      hasAlpha l = true)
    (hinstr : isInstrHeader instr = true) :
    ingLoop (mid ++ instr :: X) count =
      (mid.take (50 - count)).map parseIngLine := by
  induction mid generalizing count with
  | nil =>
    simp [ingLoop, isDashRun_false_of_instr instr hinstr, hinstr]
  | cons l ls ih =>
    have hl := hmid l (by simp)
    have hls : ∀ x ∈ ls, isDashRun x = false ∧ isInstrHeader x = false ∧
        hasAlpha x = true := fun x hx => hmid x (by simp [hx])
    rw [List.cons_append]
    by_cases h50 : 50 ≤ count + 1
    · have he : 50 - count = 1 := by omega
      simp [ingLoop, hl.1, hl.2.1, hl.2.2, h50, he]
    · have he : 50 - count = (50 - (count + 1)) + 1 := by omega
      rw [he]
      simp [ingLoop, hl.1, hl.2.1, hl.2.2, h50,
        ih (count + 1) (by omega) hls, List.take_succ_cons]

/-- C5: for every description containing an "Ingredients" header followed by
valid lines and then an "Instructions" header, ingredient extraction returns
exactly the per-line records of the lines between the two headers, in order,
capped at 50 (instantiated by the witness at the claim's example, which
yields `2 cups flour` and `1 tsp salt`). -/
theorem c5_ingredient_section (d : String) (pre mid rest : List String)
    (hd instr : String)
    (hlines : ingLines d = pre ++ hd :: (mid ++ instr :: rest))
    (hpre : ∀ l ∈ pre, isIngHeader l = false)
    (hhd : isIngHeader hd = true)
    (hinstr : isInstrHeader instr = true)
    (hmid : ∀ l ∈ mid, isDashRun l = false ∧ isInstrHeader l = false ∧
      hasAlpha l = true) :
    extractIngredients d = (mid.take 50).map parseIngLine := by
  have hcand : ingCandidates (ingLines d) = mid ++ instr :: rest := by
    rw [hlines]
    simp [ingCandidates, ingFind_skip pre (mid ++ instr :: rest) hd hpre hhd]
  rw [extractIngredients, hcand,
    ingLoop_section mid instr rest 0 (by omega) hmid hinstr]

/-- Witness for C5 at the claim's example description. -/
theorem c5_ingredient_section_witness :
    extractIngredients "Ingredients\n2 cups flour\n1 tsp salt\nInstructions\nMix." =
      [{ quantity := some 2, unit := some "cups", item := "flour" },
       { quantity := some 1, unit := some "tsp", item := "salt" }] := by
  have h := c5_ingredient_section
    "Ingredients\n2 cups flour\n1 tsp salt\nInstructions\nMix."
    [] ["2 cups flour", "1 tsp salt"] ["Mix."] "Ingredients" "Instructions"
    (by decide) (by simp) (by decide) (by decide) (by decide)
  exact h.trans (by decide)

/-! ### Helper lemmas about the step-picking loop -/

/-- The picking loop below capacity equals transforming the first
`12 - count` cue sentences. -/
lemma pickSteps_eq (ls : List String) (count : Nat) (hc : count < 12) :
    pickSteps ls count =
      ((ls.filter cueTest).take (12 - count)).map stepTransform1 := by
  induction ls generalizing count with
  | nil => simp [pickSteps]
  | cons s t ih =>
    by_cases hcue : cueTest s
    · by_cases h12 : 12 ≤ count + 1
      · have he : 12 - count = 1 := by omega
        simp [pickSteps, hcue, h12, List.filter_cons, he]
      · have he : 12 - count = (12 - (count + 1)) + 1 := by omega
        rw [he]
        simp [pickSteps, hcue, h12, List.filter_cons,
          ih (count + 1) (by omega), List.take_succ_cons]
    · have h12 : ¬ 12 ≤ count := by omega
      simp [pickSteps, hcue, h12, List.filter_cons, ih count hc]

/-- C4 counterexample: the extracted steps are in general not a subsequence
of the sentence-split transcript — the kept sentences are capitalised, so on
`"add salt. mix well."` the steps differ from every sentence. -/
theorem c4_counterexample_not_a_subsequence :
    extractSteps "add salt. mix well." = ["Add salt.", "Mix well."] ∧
    sentencesOf "add salt. mix well." = ["add salt.", "mix well."] ∧
    ¬ (extractSteps "add salt. mix well.").Sublist
        (sentencesOf "add salt. mix well.") := by
  refine ⟨by decide, by decide, fun h => ?_⟩
  have h2 := h.eq_of_length (by decide)
  exact absurd h2 (by decide)

/-- C4 (amended): for every transcript, at most 12 steps are produced; when
some sentence contains a cue word, the steps are exactly the images — under
the numeric-prefix strip and capitalisation transform — of a non-empty
subsequence of the sentence-split transcript all of whose members contain a
cue word; and in every synthesised recipe each step's `n` field equals its
1-based position. -/
theorem c4_amended_steps_shape (t : String) :
    (extractSteps t).length ≤ 12 ∧
    ((∃ s ∈ sentencesOf t, cueTest s = true) →
      ∃ kept, kept.Sublist (sentencesOf t) ∧ kept ≠ [] ∧
        (∀ s ∈ kept, cueTest s = true) ∧
        extractSteps t = kept.map (fun s => secondCap (stepTransform1 s))) ∧
    (∀ title desc tr,
      (synthesizeRecipe title desc tr).steps.map Step.n =
        (List.range (synthesizeRecipe title desc tr).steps.length).map
          (· + 1)) := by
  refine ⟨?_, ?_, ?_⟩
  · by_cases ht : t = ""
    · subst ht; decide
    · rw [extractSteps, if_neg ht]
      show (List.map secondCap
        (if pickSteps (sentencesOf t) 0 = []
         then [(sentencesOf t).headD "Follow the video steps."]
         else pickSteps (sentencesOf t) 0)).length ≤ 12
      by_cases hp : pickSteps (sentencesOf t) 0 = []
      · simp [hp]
      · rw [if_neg hp]
        rw [List.length_map, pickSteps_eq _ 0 (by omega), List.length_map,
          List.length_take]
        omega
  · rintro ⟨s, hs, hcue⟩
    have ht : t ≠ "" := by
      intro ht
      subst ht
      rw [show sentencesOf "" = [] from rfl] at hs
      cases hs
    have hmem : s ∈ (sentencesOf t).filter cueTest :=
      List.mem_filter.mpr ⟨hs, hcue⟩
    have hlen : 0 < ((sentencesOf t).filter cueTest).length :=
      List.length_pos.mpr (List.ne_nil_of_mem hmem)
    refine ⟨((sentencesOf t).filter cueTest).take 12, ?_, ?_, ?_, ?_⟩
    · exact (List.take_sublist _ _).trans (List.filter_sublist _)
    · intro hnil
      have hl0 := congrArg List.length hnil
      rw [List.length_take] at hl0
      simp only [List.length_nil] at hl0
      omega
    · intro x hx
      exact (List.mem_filter.mp (List.take_subset _ _ hx)).2
    · rw [extractSteps, if_neg ht]
      show List.map secondCap
          (if pickSteps (sentencesOf t) 0 = []
           then [(sentencesOf t).headD "Follow the video steps."]
           else pickSteps (sentencesOf t) 0) = _
      have hpk := pickSteps_eq (sentencesOf t) 0 (by omega)
      have hne : pickSteps (sentencesOf t) 0 ≠ [] := by
        rw [hpk]
        intro hnil
        have hl0 := congrArg List.length hnil
        rw [List.length_map, List.length_take] at hl0
        simp only [List.length_nil] at hl0
        omega
      rw [if_neg hne, hpk, List.map_map]
      rfl
  · intro title desc tr
    show ((extractSteps (if tr = "" then desc else tr)).enum.map
        (fun p => ({ n := p.1 + 1, text := p.2 } : Step))).map Step.n = _
    rw [List.map_map]
    rw [show ((Step.n ∘ fun p : Nat × String =>
        ({ n := p.1 + 1, text := p.2 } : Step)) : Nat × String → Nat) =
        ((fun n => n + 1) ∘ Prod.fst) from rfl]
    rw [← List.map_map, List.enum_map_fst]
    congr 2
    show _ = (((extractSteps (if tr = "" then desc else tr)).enum.map
        (fun p => ({ n := p.1 + 1, text := p.2 } : Step)))).length
    rw [List.length_map, List.enum_length]

/-- Witness for C4 (amended) at a transcript with two cue sentences. -/
theorem c4_amended_steps_shape_witness :
    (extractSteps "add salt. mix well.").length ≤ 12 ∧
    (∃ kept, kept.Sublist (sentencesOf "add salt. mix well.") ∧ kept ≠ [] ∧
      (∀ s ∈ kept, cueTest s = true) ∧
      extractSteps "add salt. mix well." =
        kept.map (fun s => secondCap (stepTransform1 s))) ∧
    ((synthesizeRecipe "T" "" "add salt. mix well.").steps.map Step.n =
      (List.range
        (synthesizeRecipe "T" "" "add salt. mix well.").steps.length).map
        (· + 1)) :=
  ⟨(c4_amended_steps_shape "add salt. mix well.").1,
   (c4_amended_steps_shape "add salt. mix well.").2.1
     ⟨"add salt.", by decide, by decide⟩,
   (c4_amended_steps_shape "add salt. mix well.").2.2 "T" ""
     "add salt. mix well."⟩

/-! ### Helper lemmas for the ingredient-pattern backtracking proof -/

lemma findSome?_cons_some {α β : Type} {f : α → Option β} {a : α}
    {l : List α} {b : β} (h : f a = some b) :
    (a :: l).findSome? f = some b := by
  simp [List.findSome?, h]

lemma findSome?_cons_none {α β : Type} {f : α → Option β} {a : α}
    {l : List α} (h : f a = none) :
    (a :: l).findSome? f = l.findSome? f := by
  simp [List.findSome?, h]

lemma letter_not_ws {c : Char} (h : isAsciiLetter c = true) :
    isJsWs c = false := by
  cases hw : isJsWs c with
  | false => rfl
  | true =>
    exfalso
    simp only [isAsciiLetter, Bool.or_eq_true, Bool.and_eq_true,
      decide_eq_true_eq] at h
    simp only [isJsWs, Bool.or_eq_true, Bool.and_eq_true, decide_eq_true_eq,
      beq_iff_eq] at hw
    omega

lemma letter_unit {c : Char} (h : isAsciiLetter c = true) :
    isUnitChar c = true := by
  simp [isUnitChar, h]

lemma letter_dot {c : Char} (h : isAsciiLetter c = true) :
    isJsDot c = true := by
  cases hd : isJsDot c with
  | true => rfl
  | false =>
    exfalso
    simp only [isAsciiLetter, Bool.or_eq_true, Bool.and_eq_true,
      decide_eq_true_eq] at h
    simp only [isJsDot, Bool.not_eq_false', Bool.or_eq_true,
      beq_iff_eq] at hd
    omega

/-- Greedy maximal munch over a block satisfying the class, stopped by the
first violating character. -/
lemma takeWhile_append_sat (p : Char → Bool) (xs : List Char)
    (hxs : ∀ c ∈ xs, p c = true) (y : Char) (hy : p y = false)
    (ys : List Char) :
    (xs ++ y :: ys).takeWhile p = xs := by
  induction xs with
  | nil => simp [List.takeWhile_cons, hy]
  | cons a t ih =>
    have ha := hxs a (by simp)
    simp [List.takeWhile_cons, ha, ih (fun c hc => hxs c (by simp [hc]))]

/-- The item tail right after the penultimate letter: the final letter is a
non-empty all-`.`-matchable item. -/
lemma tryAfterUnit_last (w : List Char) (m : Nat) (hwl : w.length = m + 2)
    (hlet : ∀ c ∈ w, isAsciiLetter c = true) :
    tryAfterUnit (some (w.take (m + 1))) (w.drop (m + 1)) =
      some (some (w.take (m + 1)), w.drop (m + 1)) := by
  have hlen : (w.drop (m + 1)).length = 1 := by
    rw [List.length_drop]; omega
  obtain ⟨z, hz⟩ := List.length_eq_one.mp hlen
  have hzl : isAsciiLetter z = true := by
    refine hlet z (List.drop_subset (m + 1) w ?_)
    simp [hz]
  simp [tryAfterUnit, hz, List.takeWhile_cons, letter_not_ws hzl, descRange,
    List.findSome?, letter_dot hzl]

/-- An empty remainder can never host the required item group. -/
lemma tryAfterUnit_nil (u : Option (List Char)) : tryAfterUnit u [] = none := by
  simp [tryAfterUnit, descRange, List.findSome?]

/-- The optional unit group over a pure-letter word of length `m + 2`
backtracks to length `m + 1`, leaving the last letter as the item. -/
lemma tryAtB_word (w : List Char) (m : Nat) (hwl : w.length = m + 2)
    (hlet : ∀ c ∈ w, isAsciiLetter c = true) :
    tryAtB w = some (some (w.take (m + 1)), w.drop (m + 1)) := by
  have htw : w.takeWhile isUnitChar = w :=
    List.takeWhile_eq_self_iff.mpr (fun c hc => letter_unit (hlet c hc))
  have htake : w.take (m + 2) = w := by
    rw [← hwl]; exact List.take_length w
  have hdrop : w.drop (m + 2) = [] := by
    rw [← hwl]; exact List.drop_length w
  simp only [tryAtB, htw, hwl]
  rw [show descRange1 (m + 2) = (m + 2) :: (m + 1) :: descRange1 m from rfl]
  have hsome : List.findSome?
      (fun cLen => tryAfterUnit (some (w.take cLen)) (w.drop cLen))
      ((m + 2) :: (m + 1) :: descRange1 m) =
      some (some (w.take (m + 1)), w.drop (m + 1)) := by
    refine (findSome?_cons_none ?_).trans ?_
    · show tryAfterUnit (some (w.take (m + 2))) (w.drop (m + 2)) = none
      rw [hdrop, tryAfterUnit_nil]
    · refine findSome?_cons_some ?_
      show tryAfterUnit (some (w.take (m + 1))) (w.drop (m + 1)) = some _
      exact tryAfterUnit_last w m hwl hlet
  rw [hsome]

/-- The tail `\\s*([a-zA-Zµμ]+)?\\s*(.+)$` against a single space followed by
an all-letter word of length `m + 2`: the whitespace is consumed, the unit
group backtracks to the first `m + 1` letters, and the final letter becomes
the item. -/
lemma matchTail2_space_word (w : List Char) (m : Nat) (hm : w.length = m + 2)
    (hlet : ∀ c ∈ w, isAsciiLetter c = true) :
    matchTail2 (' ' :: w) = some (some (w.take (m + 1)), w.drop (m + 1)) := by
  obtain ⟨a, w1, hw1⟩ : ∃ a w1, w = a :: w1 := by
    cases w with
    | nil => simp at hm
    | cons a w1 => exact ⟨a, w1, rfl⟩
  have hsp : isJsWs ' ' = true := by decide
  have hwsw : (' ' :: w).takeWhile isJsWs = [' '] := by
    rw [hw1, List.takeWhile_cons]
    have ha : isAsciiLetter a = true := hlet a (by simp [hw1])
    simp [List.takeWhile_cons, letter_not_ws ha, hsp]
  simp only [matchTail2, hwsw]
  rw [show descRange ([' '].length) = [1, 0] from rfl]
  refine findSome?_cons_some ?_
  show tryAtB ((' ' :: w).drop 1) = some _
  rw [show (' ' :: w).drop 1 = w from rfl]
  exact tryAtB_word w m hm hlet

/-- The full ingredient pattern on a line `<numeral> <word>`: the numeral
lexeme is consumed greedily (integer digits, then the whole fraction when
present), and the item group backtracks into the unit token, keeping the
final letter. -/
lemma matchIngredientLine_numword (ds fs w : List Char)
    (hds : ds ≠ []) (hdig : ∀ c ∈ ds, isAsciiDigit c = true)
    (hfdig : ∀ c ∈ fs, isAsciiDigit c = true)
    (hw : 2 ≤ w.length) (hlet : ∀ c ∈ w, isAsciiLetter c = true) :
    matchIngredientLine (numLexeme ds fs ++ ' ' :: w) =
      some (numLexeme ds fs, some (w.take (w.length - 1)),
        w.drop (w.length - 1)) := by
  obtain ⟨m, hm⟩ : ∃ m, w.length = m + 2 := ⟨w.length - 2, by omega⟩
  obtain ⟨k, hk⟩ : ∃ k, ds.length = k + 1 :=
    ⟨ds.length - 1, by
      have := List.length_pos.mpr hds
      omega⟩
  rw [show w.length - 1 = m + 1 from by omega]
  have htail := matchTail2_space_word w m hm hlet
  by_cases hfs : fs = []
  · subst hfs
    rw [show numLexeme ds [] = ds from by simp [numLexeme]]
    have hde : (ds ++ ' ' :: w).takeWhile isAsciiDigit = ds :=
      takeWhile_append_sat isAsciiDigit ds hdig ' ' (by decide) w
    have hdrop : (ds ++ ' ' :: w).drop (k + 1) = ' ' :: w := by
      rw [← hk]; exact List.drop_left ds (' ' :: w)
    have htake : (ds ++ ' ' :: w).take (k + 1) = ds := by
      rw [← hk]; exact List.take_left ds (' ' :: w)
    simp only [matchIngredientLine, hde, hk]
    rw [show descRange1 (k + 1) = (k + 1) :: descRange1 k from rfl]
    refine findSome?_cons_some ?_
    show (fracCandsOf ((ds ++ ' ' :: w).drop (k + 1)) ++ [0]).findSome? _ =
      some _
    have hf : (fracCandsOf ((ds ++ ' ' :: w).drop (k + 1)) ++ [0]) = [0] := by
      rw [hdrop]
      obtain ⟨a, w1, hw1⟩ : ∃ a w1, w = a :: w1 := by
        cases w with
        | nil => simp at hm
        | cons a w1 => exact ⟨a, w1, rfl⟩
      rw [hw1]
      rfl
    rw [hf]
    refine findSome?_cons_some ?_
    show (matchTail2 ((ds ++ ' ' :: w).drop (k + 1 + 0))).map _ = some _
    rw [show k + 1 + 0 = k + 1 from rfl, hdrop, htail]
    simp only [Option.map_some']
    rw [htake]
  · obtain ⟨j, hj⟩ : ∃ j, fs.length = j + 1 :=
      ⟨fs.length - 1, by
        have := List.length_pos.mpr hfs
        omega⟩
    rw [show numLexeme ds fs = ds ++ '.' :: fs from by simp [numLexeme, hfs]]
    have hassoc : (ds ++ '.' :: fs) ++ ' ' :: w =
        ds ++ '.' :: (fs ++ ' ' :: w) := by
      simp
    have hlenA : (k + 1) + (1 + (j + 1)) = (ds ++ '.' :: fs).length := by
      simp only [List.length_append, List.length_cons]
      omega
    have hde : ((ds ++ '.' :: fs) ++ ' ' :: w).takeWhile isAsciiDigit = ds := by
      rw [hassoc]
      exact takeWhile_append_sat isAsciiDigit ds hdig '.' (by decide) _
    have hdrop1 : ((ds ++ '.' :: fs) ++ ' ' :: w).drop (k + 1) =
        '.' :: (fs ++ ' ' :: w) := by
      rw [hassoc, ← hk]
      exact List.drop_left ds _
    have hdropA : ((ds ++ '.' :: fs) ++ ' ' :: w).drop ((k + 1) + (1 + (j + 1))) =
        ' ' :: w := by
      rw [hlenA]
      exact List.drop_left _ _
    have htakeA : ((ds ++ '.' :: fs) ++ ' ' :: w).take ((k + 1) + (1 + (j + 1))) =
        ds ++ '.' :: fs := by
      rw [hlenA]
      exact List.take_left _ _
    simp only [matchIngredientLine, hde, hk]
    rw [show descRange1 (k + 1) = (k + 1) :: descRange1 k from rfl]
    refine findSome?_cons_some ?_
    show (fracCandsOf (((ds ++ '.' :: fs) ++ ' ' :: w).drop (k + 1)) ++
      [0]).findSome? _ = some _
    rw [hdrop1]
    rw [show fracCandsOf ('.' :: (fs ++ ' ' :: w)) =
      (descRange1 ((fs ++ ' ' :: w).takeWhile isAsciiDigit).length).map
        (fun j => 1 + j) from rfl]
    rw [takeWhile_append_sat isAsciiDigit fs hfdig ' ' (by decide) w, hj]
    rw [show descRange1 (j + 1) = (j + 1) :: descRange1 j from rfl,
      List.map_cons, List.cons_append]
    refine findSome?_cons_some ?_
    show (matchTail2 (((ds ++ '.' :: fs) ++ ' ' :: w).drop
      ((k + 1) + (1 + (j + 1))))).map _ = some _
    rw [hdropA, htail]
    simp only [Option.map_some']
    rw [htakeA]

/-- C10 (amended): for a line of the form `<number> <word>` — a numeral
`[0-9]+(\\.[0-9]+)?` whose value is exactly representable as a binary64
(so that the stored `Number(m[1])` equals the exact value; in particular
any integer below `2 ^ 53`), a single space, and an all-letter word of at
least two letters — the required item group backtracks into the unit
token: the quantity is the number's value, the unit is the word with its
final letter removed, and the item is that final letter.  (For a
one-letter word the pattern instead matches with the unit group absent and
the whole word as the item.) -/
theorem c10_amended_item_backtracks_into_unit (ds fs w : List Char)
    (hds : ds ≠ []) (hdig : ∀ c ∈ ds, isAsciiDigit c = true)
    (hfdig : ∀ c ∈ fs, isAsciiDigit c = true)
    (hw : 2 ≤ w.length) (hlet : ∀ c ∈ w, isAsciiLetter c = true)
    (_hexact : jsExactDouble (ratOfLexeme (numLexeme ds fs))) :
    parseIngLine (String.mk (numLexeme ds fs ++ ' ' :: w)) =
      { quantity := some (ratOfLexeme (numLexeme ds fs))
        unit := some (String.mk (w.take (w.length - 1)))
        item := String.mk (w.drop (w.length - 1)) } := by
  have hmain := matchIngredientLine_numword ds fs w hds hdig hfdig hw hlet
  show (match matchIngredientLine
      (String.mk (numLexeme ds fs ++ ' ' :: w)).toList with
    | some (q, u, e) =>
      ({ quantity := some (ratOfLexeme q), unit := u.map String.mk,
         item := String.mk e } : Ingredient)
    | none =>
      { quantity := none, unit := none,
        item := stripBullet (String.mk (numLexeme ds fs ++ ' ' :: w)) }) = _
  rw [show (String.mk (numLexeme ds fs ++ ' ' :: w)).toList =
    numLexeme ds fs ++ ' ' :: w from rfl]
  rw [hmain]
  rfl

/-- C10 counterexample: on the line `"2 x"` — a number followed by a single
alphabetic word — extraction returns the whole word as the item with the
unit absent, contradicting the claim's "never". -/
theorem c10_counterexample_single_letter_word :
    parseIngLine "2 x" =
      { quantity := some 2, unit := none, item := "x" } ∧
    extractIngredients "2 x" =
      [{ quantity := some 2, unit := none, item := "x" }] := by
  constructor <;> decide

/-- Witness for C10 (amended) at the lines `"2 eggs"` (integer numeral) and
`"2.5 eggs"` (decimal numeral, exactly representable as `5 * 2 ^ (-1)`). -/
theorem c10_amended_item_backtracks_into_unit_witness :
    parseIngLine "2 eggs" =
      { quantity := some 2, unit := some "egg", item := "s" } ∧
    parseIngLine "2.5 eggs" =
      { quantity := some (mkRat 5 2), unit := some "egg", item := "s" } := by
  constructor
  · have h := c10_amended_item_backtracks_into_unit ['2'] [] "eggs".toList
      (by decide) (by decide) (by decide) (by decide) (by decide)
      ⟨2, 0, by norm_num, by norm_num, by norm_num, by
        rw [show ratOfLexeme (numLexeme ['2'] []) = 2 from by decide]
        norm_num⟩
    exact (show parseIngLine "2 eggs" =
        parseIngLine (String.mk (numLexeme ['2'] [] ++ ' ' :: "eggs".toList))
      from rfl).trans (h.trans (by decide))
  · have h := c10_amended_item_backtracks_into_unit ['2'] ['5'] "eggs".toList
      (by decide) (by decide) (by decide) (by decide) (by decide)
      ⟨5, -1, by norm_num, by norm_num, by norm_num, by
        rw [show ratOfLexeme (numLexeme ['2'] ['5']) = mkRat 5 2 from by decide]
        rw [Rat.mkRat_eq_div, zpow_neg, zpow_one]
        push_cast
        ring⟩
    exact (show parseIngLine "2.5 eggs" =
        parseIngLine (String.mk (numLexeme ['2'] ['5'] ++ ' ' :: "eggs".toList))
      from rfl).trans (h.trans (by decide))

end RecipeApi
